import Mathlib

set_option maxRecDepth 40000

/-!
Shallow embedding of the frame-to-stylesheet encoder of keyframed-videos
(src/unnamed/part_000, the yargs/cli-progress revision, which subsumes
src/src/generate.mjs for the functions treated here): minimizeHexColor,
createLinearGradient (run merging, stop synthesis, asPercent) and
AnimationData.generateCSS (keyframe emission with precision-driven and
content-driven collapse).

Numbers: JS doubles are modelled as exact rationals. Number.prototype.toFixed
(round half-up for the nonnegative values arising here) followed by parseFloat
is modelled by toFixedInt / toFixedVal, and the textual comparison
next.toFixed(p) === percentage is modelled as equality of the rounded scaled
integers, because toFixed output with a fixed fraction-digit count is a
canonical rendering of the rounded value. Template-literal number interpolation
is modelled by numToString, which prints terminating decimals exactly as JS
does and falls back to an exact fraction rendering for non-terminating ones
(JS would print the nearest double's shortest decimal; no theorem below
depends on that case). Braces that occur in CSS text are written with
hex escapes.
-/

/-- One maximal run inside a scanline, as accumulated by the reduce pass of
createLinearGradient: the stored color text and how many consecutive pixels
hold it. -/
structure Run where
  color : String
  count : Nat
deriving DecidableEq, Inhabited

/-- A scanline: the stored color text of each pixel, left to right. -/
abbrev Row := List String

/-- A frame: its rows, top to bottom. -/
abbrev Frame := List Row

/-- minimizeHexColor of src/unnamed/part_000: a 6-digit hex color collapses to
3 digits whenever each channel's two digits coincide and is returned unchanged
otherwise. Only 6-character raw colors reach this function in the program. -/
def minimizeHexColor (hexColor : String) : String :=
  match hexColor.data with
  | [c0, c1, c2, c3, c4, c5] =>
      if c0 = c1 ∧ c2 = c3 ∧ c4 = c5 then String.mk [c0, c2, c4] else hexColor
  | _ => hexColor

/-- Expansion of a 3-digit minimized color back to 6-digit form by duplicating
each digit (the inverse direction used by the round-trip property). -/
def expandHex (s : String) : String :=
  String.mk (s.data.foldr (fun c acc => c :: c :: acc) [])

/-- One step of the reduce in createLinearGradient: push a fresh run when the
accumulator is empty (the JS `i === 0` test, equivalent to an empty
accumulator) or when the color differs from the last run's color; otherwise
increment the last run's count. -/
def jsMergeStep (acc : List Run) (color : String) : List Run :=
  match acc.getLast? with
  | none => acc ++ [⟨color, 1⟩]
  | some last =>
      if color ≠ last.color then acc ++ [⟨color, 1⟩]
      else acc.dropLast ++ [⟨last.color, last.count + 1⟩]

/-- The mergedColors reduce of createLinearGradient: left-to-right merging of
consecutive equal stored colors into runs. -/
def mergedColors (colorArray : List String) : List Run :=
  colorArray.foldl jsMergeStep []

/-- Structural form of the merging pass: scanning with a current color and a
current count. Proved equal to mergedColors below; inductions are done here. -/
def runsAux (c : String) (n : Nat) : List String → List Run
  | [] => [⟨c, n⟩]
  | x :: xs => if x = c then runsAux c (n + 1) xs else ⟨c, n⟩ :: runsAux x 1 xs

/-- Decoding a run list back into a scanline: each run contributes its color
repeated count times, in order. -/
def runsDecode : List Run → List String
  | [] => []
  | r :: rs => List.replicate r.count r.color ++ runsDecode rs

/-- Smallest number of decimal digits (up to the fuel) after which a rational
becomes an integer when scaled by powers of ten. -/
def findDen1 : ℚ → Nat → Option Nat
  | q, 0 => if q.den = 1 then some 0 else none
  | q, n + 1 => if q.den = 1 then some 0 else (findDen1 (q * 10) n).map (· + 1)

/-- Left-pad a digit string with zeros up to the wanted width. -/
def padZeros (d : Nat) (s : String) : String :=
  String.mk (List.replicate (d - s.length) '0') ++ s

/-- JS template-literal rendering of a number: integers print without a point,
terminating decimals print with their minimal digits (no trailing zeros), and
a non-terminating rational (which JS, computing in binary doubles, never holds
exactly) is rendered as an exact fraction. -/
def numToString (q : ℚ) : String :=
  match findDen1 q 40 with
  | some 0 => q.num.repr
  | some d =>
      let m := (q * (10 : ℚ) ^ d).num
      let sign := if m < 0 then "-" else ""
      let a := m.natAbs
      sign ++ Nat.repr (a / 10 ^ d) ++ "." ++ padZeros d (Nat.repr (a % 10 ^ d))
  | none => q.num.repr ++ "/" ++ q.den.repr

/-- asPercent of src/unnamed/part_000: the literal value 0 is interpolated as
the bare digit 0 (the JS branch returns the number itself), every other value
gets a percent suffix. -/
def asPercent (pcnt : ℚ) : String :=
  if pcnt = 0 then numToString pcnt else numToString pcnt ++ "%"

/-- The integer rounding of JS toFixed(f) on a nonnegative value: the value
scaled by 10^f and rounded half-up. -/
def toFixedInt (f : Nat) (q : ℚ) : Int :=
  Int.floor (q * 10 ^ f + 1 / 2)

/-- parseFloat of a toFixed(f) rendering: the rounded value as a rational. -/
def toFixedVal (f : Nat) (q : ℚ) : ℚ :=
  (toFixedInt f q : ℚ) / 10 ^ f

/-- Rounding applied only when a finite precision is configured (the JS
`if (percision >= 0) x = parseFloat(x.toFixed(percision))` pattern). -/
def roundIf (p : Int) (q : ℚ) : ℚ :=
  if 0 ≤ p then toFixedVal p.toNat q else q

/-- The body of the stop-emitting map in createLinearGradient: compute the
(possibly rounded) start percentage, advance the cumulative width, compute the
(possibly rounded) end percentage, and emit the start annotation always and
the end annotation unless the end percentage equals 100. Returns the stop text
and the advanced cumulative width. -/
def stopOfRun (percision : Int) (totalWidth widthPerColor cumulativeWidth : ℚ)
    (r : Run) : String × ℚ :=
  let startPercentage : ℚ := cumulativeWidth / totalWidth * 100
  let startPercentage :=
    if 0 ≤ percision then toFixedVal percision.toNat startPercentage else startPercentage
  let cumulativeWidth := cumulativeWidth + (r.count : ℚ) * widthPerColor
  let endPercentage : ℚ := cumulativeWidth / totalWidth * 100
  let endPercentage :=
    if 0 ≤ percision then toFixedVal percision.toNat endPercentage else endPercentage
  let code := "#" ++ r.color ++ " " ++ asPercent startPercentage
  (if endPercentage ≠ 100 then code ++ " " ++ asPercent endPercentage else code,
   cumulativeWidth)

/-- The stop-emitting map of createLinearGradient, threading cumulativeWidth
through the runs. -/
def gradientStops (percision : Int) (totalWidth widthPerColor : ℚ) :
    ℚ → List Run → List String
  | _, [] => []
  | cum, r :: rs =>
      (stopOfRun percision totalWidth widthPerColor cum r).1 ::
        gradientStops percision totalWidth widthPerColor
          (stopOfRun percision totalWidth widthPerColor cum r).2 rs

/-- createLinearGradient of src/unnamed/part_000: merge the scanline into
runs, compute the total width, emit the degenerate two-point stop list when
exactly one run covers the row and the general stop list otherwise, and wrap
everything in the gradient function text. -/
def createLinearGradient (colorArray : List String) (widthPerColor : ℚ)
    (percision : Int) : String :=
  let merged := mergedColors colorArray
  let totalWidth : ℚ := (((merged.map Run.count).sum : ℕ) : ℚ) * widthPerColor
  let stops : List String :=
    if merged.length = 1 then
      ["#" ++ merged.headI.color, "#" ++ merged.headI.color]
    else gradientStops percision totalWidth widthPerColor 0 merged
  "linear-gradient(90deg," ++ String.intercalate "," stops ++ ")"

/-- The comparison key of a frame in generateCSS: the JS frame.join("")
converts each row (an array) to its comma-joined text and concatenates the
rows without a separator. -/
def frameString (frame : Frame) : String :=
  String.intercalate "" (frame.map (fun colors => String.intercalate "," colors))

/-- One iteration of the keyframe map of generateCSS, with the mutable
lastFrameString made explicit: the precision check (suppress when this frame's
and the next frame's percentages round to the same toFixed text) runs first
and returns without touching the state; then the content check (suppress when
the frame's key equals the last emitted frame's key); otherwise the keyframe
rule text is emitted and the state is updated. Returns the emitted text (empty
when suppressed) and the new lastFrameString. -/
def keyframeEntry (frameCount : Nat) (precision : Int) (index : Nat)
    (frame : Frame) (lastFrameString : String) : String × String :=
  let percentage : ℚ := (index : ℚ) / (frameCount : ℚ) * 100
  if 0 ≤ precision ∧
      toFixedInt precision.toNat (((index : ℚ) + 1) / (frameCount : ℚ) * 100)
        = toFixedInt precision.toNat percentage then
    ("", lastFrameString)
  else
    let percentage2 : ℚ :=
      if 0 ≤ precision then toFixedVal precision.toNat percentage else percentage
    let fs := frameString frame
    if fs = lastFrameString then ("", lastFrameString)
    else
      (numToString percentage2 ++ "%\x7b--a:" ++
         String.intercalate ","
           (frame.map (fun colors => createLinearGradient colors 1 precision)) ++
         "\x7d",
       fs)

/-- The keyframe map of generateCSS as a fold over the frames, producing one
entry per frame (empty text for suppressed frames), threading the index and
lastFrameString. -/
def keyframesAux (frameCount : Nat) (precision : Int) :
    Nat → String → List Frame → List String
  | _, _, [] => []
  | index, last, frame :: rest =>
      (keyframeEntry frameCount precision index frame last).1 ::
        keyframesAux frameCount precision (index + 1)
          (keyframeEntry frameCount precision index frame last).2 rest

/-- The keyframes array of generateCSS: the map over this.frames with
lastFrameString starting empty. -/
def generateKeyframes (frames : List Frame) (precision : Int) : List String :=
  keyframesAux frames.length precision 0 "" frames

/-- AnimationData.generateCSS of src/unnamed/part_000: the fixed layout rule
(height, width, animation, background sizing and positions) followed by the
keyframes block. -/
def generateCSS (frames : List Frame) (animationWidth animationHeight : Nat)
    (animationDuration : ℚ) (precision : Int) : String :=
  let rowPositions :=
    (List.range animationHeight).map (fun i => "0 " ++ Nat.repr i ++ "px")
  let rowSizes :=
    List.replicate animationHeight (Nat.repr animationWidth ++ "px 1px")
  let keyframes := generateKeyframes frames precision
  ".animation\x7bheight:" ++ Nat.repr animationHeight ++ "px;width:" ++
    Nat.repr animationWidth ++ "px;animation:animation-frames " ++
    numToString animationDuration ++ "s infinite;" ++
    "background-repeat:no-repeat;background-image:var(--a);background-size:" ++
    String.intercalate "," rowSizes ++ ";background-position:" ++
    String.intercalate "," rowPositions ++
    "\x7d@keyframes animation-frames\x7b" ++
    String.intercalate "" keyframes ++ "\x7d"

example : createLinearGradient ["a", "a", "a"] 1 (-1)
    = "linear-gradient(90deg,#a,#a)" := by with_unfolding_all decide

example : createLinearGradient ["a", "b"] 1 (-1)
    = "linear-gradient(90deg,#a 0 50%,#b 50%)" := by with_unfolding_all decide

example : minimizeHexColor "aabbcc" = "abc" := by decide

example : numToString (2 / 5 : ℚ) = "0.4" := by with_unfolding_all decide

/-! Bridging the source's reduce to the structural scan, and the basic run
properties. -/

lemma foldl_jsMergeStep :
    ∀ (xs : List String) (acc : List Run) (c : String) (n : Nat),
      List.foldl jsMergeStep (acc ++ [⟨c, n⟩]) xs = acc ++ runsAux c n xs := by
  intro xs
  induction xs with
  | nil => intro acc c n; simp [runsAux]
  | cons x xs ih =>
      intro acc c n
      by_cases h : x = c
      · have hstep : jsMergeStep (acc ++ [⟨c, n⟩]) x = acc ++ [⟨c, n + 1⟩] := by
          simp [jsMergeStep, h]
        rw [List.foldl_cons, hstep, ih]
        simp [runsAux, h]
      · have hstep :
            jsMergeStep (acc ++ [⟨c, n⟩]) x = (acc ++ [⟨c, n⟩]) ++ [⟨x, 1⟩] := by
          simp [jsMergeStep, h]
        rw [List.foldl_cons, hstep, ih]
        simp [runsAux, h]

lemma mergedColors_nil : mergedColors [] = [] := rfl

lemma mergedColors_cons (c : String) (cs : List String) :
    mergedColors (c :: cs) = runsAux c 1 cs := by
  have h0 : jsMergeStep [] c = [] ++ [⟨c, 1⟩] := rfl
  have := foldl_jsMergeStep cs [] c 1
  simpa [mergedColors, h0] using this

lemma runsAux_sum :
    ∀ (xs : List String) (c : String) (n : Nat),
      ((runsAux c n xs).map Run.count).sum = n + xs.length := by
  intro xs
  induction xs with
  | nil => intro c n; simp [runsAux]
  | cons x xs ih =>
      intro c n
      by_cases h : x = c
      · simp only [runsAux, if_pos h]
        rw [ih]
        simp; omega
      · simp only [runsAux, if_neg h, List.map_cons, List.sum_cons]
        rw [ih]
        simp; omega

lemma runsAux_decode :
    ∀ (xs : List String) (c : String) (n : Nat),
      runsDecode (runsAux c n xs) = List.replicate n c ++ xs := by
  intro xs
  induction xs with
  | nil => intro c n; simp [runsAux, runsDecode]
  | cons x xs ih =>
      intro c n
      by_cases h : x = c
      · simp only [runsAux, if_pos h]
        rw [ih, List.replicate_succ']
        simp [h, List.append_assoc]
      · simp only [runsAux, if_neg h, runsDecode]
        rw [ih]
        simp

lemma runsAux_head_color :
    ∀ (xs : List String) (c : String) (n : Nat),
      ((runsAux c n xs).head?.map Run.color) = some c := by
  intro xs
  induction xs with
  | nil => intro c n; simp [runsAux]
  | cons x xs ih =>
      intro c n
      by_cases h : x = c
      · simp only [runsAux, if_pos h]; exact ih c (n + 1)
      · simp [runsAux, h]

lemma runsAux_chain :
    ∀ (xs : List String) (c : String) (n : Nat),
      List.Chain' (fun a b : Run => a.color ≠ b.color) (runsAux c n xs) := by
  intro xs
  induction xs with
  | nil => intro c n; simp [runsAux]
  | cons x xs ih =>
      intro c n
      by_cases h : x = c
      · simp only [runsAux, if_pos h]; exact ih c (n + 1)
      · simp only [runsAux, if_neg h]
        rw [List.chain'_cons']
        refine ⟨?_, ih x 1⟩
        intro b hb
        have := runsAux_head_color xs x 1
        rw [hb] at this
        simp at this
        simp [this]
        intro hc
        exact absurd hc.symm h

lemma runsAux_pos :
    ∀ (xs : List String) (c : String) (n : Nat), 0 < n →
      ∀ r ∈ runsAux c n xs, 0 < r.count := by
  intro xs
  induction xs with
  | nil =>
      intro c n hn r hr
      simp [runsAux] at hr
      simp [hr, hn]
  | cons x xs ih =>
      intro c n hn r hr
      by_cases h : x = c
      · simp only [runsAux, if_pos h] at hr
        exact ih c (n + 1) (Nat.succ_pos n) r hr
      · simp only [runsAux, if_neg h, List.mem_cons] at hr
        rcases hr with hr | hr
        · simp [hr, hn]
        · exact ih x 1 Nat.one_pos r hr

/-! Claim C8: the run decomposition of a non-empty scanline sums to the row
width, decodes back to the row (contiguous, non-overlapping, complete
coverage in order), is maximal (adjacent runs differ in color), and every
run is non-empty. -/

/-- C8: for every non-empty row, the left-to-right merging pass of
createLinearGradient yields runs whose pixel counts sum to the row width,
whose in-order decoding reproduces the row exactly (contiguity, disjointness
and full coverage), in which no two adjacent runs share a color (maximality),
and whose counts are all positive. -/
theorem run_decomposition (row : List String) (hrow : row ≠ []) :
    ((mergedColors row).map Run.count).sum = row.length ∧
    runsDecode (mergedColors row) = row ∧
    List.Chain' (fun a b : Run => a.color ≠ b.color) (mergedColors row) ∧
    (∀ r ∈ mergedColors row, 0 < r.count) := by
  match row, hrow with
  | c :: cs, _ =>
      rw [mergedColors_cons]
      refine ⟨?_, ?_, runsAux_chain cs c 1, runsAux_pos cs c 1 Nat.one_pos⟩
      · rw [runsAux_sum]; simp; omega
      · rw [runsAux_decode]; simp

/-- Witness for run_decomposition at a concrete three-pixel row. -/
theorem run_decomposition_witness :
    ((mergedColors ["a", "a", "b"]).map Run.count).sum = 3 ∧
    runsDecode (mergedColors ["a", "a", "b"]) = ["a", "a", "b"] ∧
    List.Chain' (fun a b : Run => a.color ≠ b.color) (mergedColors ["a", "a", "b"]) ∧
    (∀ r ∈ mergedColors ["a", "a", "b"], 0 < r.count) :=
  run_decomposition ["a", "a", "b"] (by decide)

/-! Claim C3: single-color rows produce the degenerate two-point gradient. -/

lemma runsAux_replicate (c : String) :
    ∀ (m n : Nat), runsAux c n (List.replicate m c) = [⟨c, n + m⟩] := by
  intro m
  induction m with
  | zero => intro n; simp [runsAux]
  | succ m ih =>
      intro n
      rw [List.replicate_succ]
      simp only [runsAux, if_pos rfl]
      rw [ih]
      simp; omega

lemma mergedColors_replicate (c : String) (n : Nat) :
    mergedColors (List.replicate (n + 1) c) = [⟨c, n + 1⟩] := by
  rw [List.replicate_succ, mergedColors_cons, runsAux_replicate]
  simp; omega

/-- C3: for every non-empty row made of a single repeated color, for every
unit width and every precision setting, createLinearGradient returns the
degenerate two-point gradient carrying the color twice with no percentage
annotations. -/
theorem degenerate_row_gradient (c : String) (n : Nat) (w : ℚ) (p : Int) :
    createLinearGradient (List.replicate (n + 1) c) w p
      = "linear-gradient(90deg,#" ++ c ++ ",#" ++ c ++ ")" := by
  rw [createLinearGradient, mergedColors_replicate]
  simp only [List.map_cons, List.map_nil, List.sum_cons, List.sum_nil, List.length_cons,
    List.length_nil, List.headI]
  have hic : String.intercalate "," ["#" ++ c, "#" ++ c] = "#" ++ c ++ "," ++ ("#" ++ c) := rfl
  simp only [if_true]
  rw [hic]
  apply String.ext
  simp [String.data_append]

/-! Claim C9: minimizeHexColor round-trips on 6-digit colors. -/

lemma minimizeHexColor_six (c0 c1 c2 c3 c4 c5 : Char) :
    minimizeHexColor (String.mk [c0, c1, c2, c3, c4, c5])
      = if c0 = c1 ∧ c2 = c3 ∧ c4 = c5 then String.mk [c0, c2, c4]
        else String.mk [c0, c1, c2, c3, c4, c5] := rfl

/-- C9: ColorCodec.encode (minimizeHexColor) round-trips: on a 6-hex-digit
color whose channels each repeat one digit, expanding the 3-digit output by
duplicating each digit reproduces the original string; on a color without
that symmetry the function returns its input unchanged. -/
theorem minimize_roundtrip (c0 c1 c2 c3 c4 c5 : Char) :
    (c0 = c1 ∧ c2 = c3 ∧ c4 = c5 →
       expandHex (minimizeHexColor (String.mk [c0, c1, c2, c3, c4, c5]))
         = String.mk [c0, c1, c2, c3, c4, c5]) ∧
    (¬ (c0 = c1 ∧ c2 = c3 ∧ c4 = c5) →
       minimizeHexColor (String.mk [c0, c1, c2, c3, c4, c5])
         = String.mk [c0, c1, c2, c3, c4, c5]) := by
  constructor
  · intro h
    obtain ⟨h01, h23, h45⟩ := h
    subst h01; subst h23; subst h45
    rw [minimizeHexColor_six, if_pos ⟨rfl, rfl, rfl⟩]
    rfl
  · intro h
    rw [minimizeHexColor_six, if_neg h]

/-- Witness for minimize_roundtrip: both branches at concrete colors. -/
theorem minimize_roundtrip_witness :
    expandHex (minimizeHexColor "aabbcc") = "aabbcc" ∧
    minimizeHexColor "abcdef" = "abcdef" :=
  ⟨(minimize_roundtrip 'a' 'a' 'b' 'b' 'c' 'c').1 (by decide),
   (minimize_roundtrip 'a' 'b' 'c' 'd' 'e' 'f').2 (by decide)⟩

/-! Claim C7 machinery: minimizeHexColor is injective on 6-character colors,
so run detection over the stored (minimized) colors agrees with run detection
over the raw colors. -/

lemma list_len6 {α : Type _} (l : List α) (h : l.length = 6) :
    ∃ c0 c1 c2 c3 c4 c5, l = [c0, c1, c2, c3, c4, c5] := by
  cases l with
  | nil => simp at h
  | cons c0 l =>
  cases l with
  | nil => simp at h
  | cons c1 l =>
  cases l with
  | nil => simp at h
  | cons c2 l =>
  cases l with
  | nil => simp at h
  | cons c3 l =>
  cases l with
  | nil => simp at h
  | cons c4 l =>
  cases l with
  | nil => simp at h
  | cons c5 l =>
  cases l with
  | nil => exact ⟨c0, c1, c2, c3, c4, c5, rfl⟩
  | cons c6 l => simp at h

lemma min_inj6 (a b : String) (ha : a.length = 6) (hb : b.length = 6)
    (h : minimizeHexColor a = minimizeHexColor b) : a = b := by
  obtain ⟨la⟩ := a
  obtain ⟨lb⟩ := b
  have ha' : la.length = 6 := ha
  have hb' : lb.length = 6 := hb
  obtain ⟨a0, a1, a2, a3, a4, a5, rfl⟩ := list_len6 la ha'
  obtain ⟨b0, b1, b2, b3, b4, b5, rfl⟩ := list_len6 lb hb'
  rw [show (⟨[a0, a1, a2, a3, a4, a5]⟩ : String) = String.mk [a0, a1, a2, a3, a4, a5] from rfl,
      show (⟨[b0, b1, b2, b3, b4, b5]⟩ : String) = String.mk [b0, b1, b2, b3, b4, b5] from rfl,
      minimizeHexColor_six, minimizeHexColor_six] at h
  by_cases hA : a0 = a1 ∧ a2 = a3 ∧ a4 = a5 <;>
    by_cases hB : b0 = b1 ∧ b2 = b3 ∧ b4 = b5
  · rw [if_pos hA, if_pos hB] at h
    obtain ⟨hA1, hA2, hA3⟩ := hA
    obtain ⟨hB1, hB2, hB3⟩ := hB
    rw [String.ext_iff] at h
    simp only [List.cons.injEq, and_true] at h
    obtain ⟨e0, e2, e4⟩ := h
    subst e0; subst e2; subst e4
    rw [String.ext_iff]
    subst hA1; subst hA2; subst hA3; subst hB1; subst hB2; subst hB3
    rfl
  · rw [if_pos hA, if_neg hB] at h
    have := congrArg (fun s => s.data.length) h
    simp at this
  · rw [if_neg hA, if_pos hB] at h
    have := congrArg (fun s => s.data.length) h
    simp at this
  · rw [if_neg hA, if_neg hB] at h
    exact h

/-- Renaming the color of a run while keeping its pixel count. -/
def mapRunColor (f : String → String) (r : Run) : Run :=
  ⟨f r.color, r.count⟩

lemma runsAux_map (f : String → String) :
    ∀ (xs : List String) (c : String) (n : Nat),
      (∀ a ∈ c :: xs, ∀ b ∈ c :: xs, f a = f b → a = b) →
      runsAux (f c) n (xs.map f) = (runsAux c n xs).map (mapRunColor f) := by
  intro xs
  induction xs with
  | nil => intro c n _; simp [runsAux, mapRunColor]
  | cons x xs ih =>
      intro c n hinj
      have hxc : f x = f c ↔ x = c := by
        constructor
        · intro h
          exact hinj x (by simp) c (by simp) h
        · intro h; rw [h]
      have hsub1 : ∀ a ∈ c :: xs, a ∈ c :: x :: xs := by
        intro a ha
        rcases List.mem_cons.mp ha with h1 | h1
        · simp [h1]
        · simp [h1]
      have hsub2 : ∀ a ∈ x :: xs, a ∈ c :: x :: xs := by
        intro a ha
        rcases List.mem_cons.mp ha with h1 | h1
        · simp [h1]
        · simp [h1]
      by_cases h : x = c
      · rw [List.map_cons]
        simp only [runsAux, if_pos h, if_pos (hxc.mpr h)]
        exact ih c (n + 1) (fun a ha b hb hab => hinj a (hsub1 a ha) b (hsub1 b hb) hab)
      · rw [List.map_cons]
        have hfx : ¬ f x = f c := fun hc => h (hxc.mp hc)
        simp only [runsAux, if_neg h, if_neg hfx, List.map_cons]
        rw [ih x 1 (fun a ha b hb hab => hinj a (hsub2 a ha) b (hsub2 b hb) hab)]
        rfl

lemma mergedColors_map (f : String → String) (row : List String)
    (hinj : ∀ a ∈ row, ∀ b ∈ row, f a = f b → a = b) :
    mergedColors (row.map f) = (mergedColors row).map (mapRunColor f) := by
  cases row with
  | nil => rfl
  | cons c cs =>
      rw [List.map_cons, mergedColors_cons, mergedColors_cons]
      exact runsAux_map f cs c 1 hinj

/-- Reference pipeline for the refinement claim, following the spec's words:
run detection compares the raw (un-minimized) colors, and minimization is
applied only when each stop's color text is emitted (the run list is renamed
through minimizeHexColor just before stop synthesis, which reads a run's color
only to print it). -/
def createLinearGradientRaw (colorArray : List String) (widthPerColor : ℚ)
    (percision : Int) : String :=
  let merged := (mergedColors colorArray).map (mapRunColor minimizeHexColor)
  let totalWidth : ℚ := (((merged.map Run.count).sum : ℕ) : ℚ) * widthPerColor
  let stops : List String :=
    if merged.length = 1 then
      ["#" ++ merged.headI.color, "#" ++ merged.headI.color]
    else gradientStops percision totalWidth widthPerColor 0 merged
  "linear-gradient(90deg," ++ String.intercalate "," stops ++ ")"

/-- C7: the actual pipeline stores minimized colors at setPixel time and
detects runs by comparing the stored strings; on rows of 6-character raw
colors this agrees with the reference pipeline that detects runs on the raw
colors and minimizes only at emission: the run decompositions correspond run
for run (same counts, minimized colors) and the emitted gradient text is
identical, for every unit width and precision. -/
theorem minimization_refinement (row : List String) (w : ℚ) (p : Int)
    (h6 : ∀ c ∈ row, c.length = 6) :
    mergedColors (row.map minimizeHexColor)
        = (mergedColors row).map (mapRunColor minimizeHexColor) ∧
    createLinearGradient (row.map minimizeHexColor) w p
        = createLinearGradientRaw row w p := by
  have hinj : ∀ a ∈ row, ∀ b ∈ row, minimizeHexColor a = minimizeHexColor b → a = b :=
    fun a ha b hb h => min_inj6 a b (h6 a ha) (h6 b hb) h
  have hm := mergedColors_map minimizeHexColor row hinj
  refine ⟨hm, ?_⟩
  rw [createLinearGradient, createLinearGradientRaw, hm]

/-- Witness for minimization_refinement at a concrete row of 6-digit colors. -/
theorem minimization_refinement_witness :
    mergedColors (["aabbcc", "aabbcc", "123456"].map minimizeHexColor)
        = (mergedColors ["aabbcc", "aabbcc", "123456"]).map (mapRunColor minimizeHexColor) ∧
    createLinearGradient (["aabbcc", "aabbcc", "123456"].map minimizeHexColor) 1 (-1)
        = createLinearGradientRaw ["aabbcc", "aabbcc", "123456"] 1 (-1) :=
  minimization_refinement ["aabbcc", "aabbcc", "123456"] 1 (-1) (by decide)

/-! Claim C6 machinery: the threaded cumulativeWidth of the stop map equals
the prefix sums of the run counts, so each emitted stop has the closed form
dictated by the spec. -/

/-- The cumulative width in front of run k: the pixel counts of the first k
runs, scaled by the unit width. -/
def runStartWidth (w : ℚ) (runs : List Run) (k : Nat) : ℚ :=
  (((runs.take k).map Run.count).sum : ℕ) * w

/-- The spec's closed form of the k-th emitted stop: start and end
percentages computed from prefix sums (offset by the starting cumulative
width), each rounded when a finite precision is configured; the color printed
with its start annotation always and its end annotation unless the (rounded)
end percentage equals 100. -/
def specStop (p : Int) (tw w : ℚ) (runs : List Run) (cum : ℚ) (k : Nat) : String :=
  match runs[k]? with
  | none => ""
  | some r =>
      let s := roundIf p ((cum + runStartWidth w runs k) / tw * 100)
      let e := roundIf p ((cum + runStartWidth w runs (k + 1)) / tw * 100)
      if e ≠ 100 then "#" ++ r.color ++ " " ++ asPercent s ++ " " ++ asPercent e
      else "#" ++ r.color ++ " " ++ asPercent s

lemma stopOfRun_fst (p : Int) (tw w cum : ℚ) (r : Run) (rs : List Run) :
    (stopOfRun p tw w cum r).1 = specStop p tw w (r :: rs) cum 0 := by
  simp only [stopOfRun, specStop, roundIf, runStartWidth, List.take_zero,
    List.take_succ_cons, List.map_nil, List.sum_nil, List.map_cons, List.sum_cons,
    Nat.cast_zero, zero_mul, add_zero, Nat.add_zero, List.getElem?_cons_zero]

lemma stopOfRun_snd (p : Int) (tw w cum : ℚ) (r : Run) :
    (stopOfRun p tw w cum r).2 = cum + (r.count : ℚ) * w := rfl

lemma specStop_shift (p : Int) (tw w cum : ℚ) (r : Run) (rs : List Run) (k : Nat) :
    specStop p tw w (r :: rs) cum (k + 1)
      = specStop p tw w rs (cum + (r.count : ℚ) * w) k := by
  have h1 : cum + runStartWidth w (r :: rs) (k + 1)
      = (cum + (r.count : ℚ) * w) + runStartWidth w rs k := by
    simp only [runStartWidth, List.take_succ_cons, List.map_cons, List.sum_cons]
    push_cast
    ring
  have h2 : cum + runStartWidth w (r :: rs) (k + 1 + 1)
      = (cum + (r.count : ℚ) * w) + runStartWidth w rs (k + 1) := by
    simp only [runStartWidth, List.take_succ_cons, List.map_cons, List.sum_cons]
    push_cast
    ring
  simp only [specStop, List.getElem?_cons_succ, h1, h2]

lemma gradientStops_eq (p : Int) (tw w : ℚ) :
    ∀ (runs : List Run) (cum : ℚ),
      gradientStops p tw w cum runs
        = (List.range runs.length).map (specStop p tw w runs cum) := by
  intro runs
  induction runs with
  | nil => intro cum; simp [gradientStops]
  | cons r rs ih =>
      intro cum
      rw [List.length_cons, List.range_succ_eq_map, List.map_cons, List.map_map]
      show (stopOfRun p tw w cum r).1 ::
          gradientStops p tw w (stopOfRun p tw w cum r).2 rs = _
      rw [stopOfRun_fst p tw w cum r rs, stopOfRun_snd, ih]
      refine congrArg _ (List.map_congr_left ?_)
      intro k _
      exact (specStop_shift p tw w cum r rs k).symm

/-- C6: in the multi-run case, createLinearGradient emits one stop per run in
order, and the k-th stop is exactly the spec's closed form: the color with its
(possibly rounded) start percentage annotation, followed by its (possibly
rounded) end percentage annotation unless that end percentage equals 100, in
which case the end annotation is omitted; in particular both annotations are
present for every run whose end percentage is not 100. -/
theorem stops_general_form (colorArray : List String) (w : ℚ) (p : Int)
    (h2 : 2 ≤ (mergedColors colorArray).length) :
    createLinearGradient colorArray w p
      = "linear-gradient(90deg," ++
          String.intercalate ","
            ((List.range (mergedColors colorArray).length).map
              (specStop p
                (((((mergedColors colorArray).map Run.count).sum : ℕ) : ℚ) * w)
                w (mergedColors colorArray) 0)) ++ ")" := by
  simp only [createLinearGradient]
  rw [if_neg (by omega : ¬ (mergedColors colorArray).length = 1)]
  rw [gradientStops_eq]

/-- Witness for stops_general_form: a two-run row, evaluated to its stop
texts. -/
theorem stops_general_form_witness :
    2 ≤ (mergedColors ["a", "b"]).length ∧
    createLinearGradient ["a", "b"] 1 (-1)
      = "linear-gradient(90deg,#a 0 50%,#b 50%)" :=
  ⟨by with_unfolding_all decide,
   by
    rw [stops_general_form ["a", "b"] 1 (-1) (by with_unfolding_all decide)]
    with_unfolding_all decide⟩

/-! Claim C10: with unit width 1 and unlimited precision, the cumulative
width after the final run equals the total width exactly, so the final run's
end percentage is exactly 100 and its end annotation is always omitted. -/

lemma mergedColors_count_pos (ca : List String) :
    ∀ r ∈ mergedColors ca, 0 < r.count := by
  cases ca with
  | nil => intro r hr; simp [mergedColors_nil] at hr
  | cons c cs =>
      rw [mergedColors_cons]
      exact runsAux_pos cs c 1 Nat.one_pos

/-- C10: for every row whose merge yields at least two runs, with unit width
1 and unlimited precision, the total width is non-zero, the cumulative width
after the final run equals the total width exactly (the integer prefix sum
over all runs), the final end percentage is exactly 100, and therefore the
final emitted stop carries only its start annotation — the gradient text
never ends in an explicit 100% stop. -/
theorem final_stop_omitted (ca : List String) (h2 : 2 ≤ (mergedColors ca).length) :
    ((((mergedColors ca).map Run.count).sum : ℕ) : ℚ) ≠ 0 ∧
    runStartWidth 1 (mergedColors ca) (mergedColors ca).length
        = ((((mergedColors ca).map Run.count).sum : ℕ) : ℚ) * 1 ∧
    runStartWidth 1 (mergedColors ca) (mergedColors ca).length
        / (((((mergedColors ca).map Run.count).sum : ℕ) : ℚ) * 1) * 100 = 100 ∧
    ∃ r : Run, (mergedColors ca).getLast? = some r ∧
      (gradientStops (-1) (((((mergedColors ca).map Run.count).sum : ℕ) : ℚ) * 1) 1 0
          (mergedColors ca)).getLast?
        = some ("#" ++ r.color ++ " " ++
            asPercent (runStartWidth 1 (mergedColors ca) ((mergedColors ca).length - 1)
              / ((((mergedColors ca).map Run.count).sum : ℕ) : ℚ) * 100)) := by
  have hpos := mergedColors_count_pos ca
  have hne : mergedColors ca ≠ [] := by
    intro h
    rw [h] at h2
    simp at h2
  have hSpos : 0 < ((mergedColors ca).map Run.count).sum := by
    cases hm : mergedColors ca with
    | nil => exact absurd hm hne
    | cons r rest =>
        have : 0 < r.count := hpos r (by rw [hm]; simp)
        simp only [List.map_cons, List.sum_cons]
        omega
  have hS : ((((mergedColors ca).map Run.count).sum : ℕ) : ℚ) ≠ 0 := by
    exact_mod_cast Nat.pos_iff_ne_zero.mp hSpos
  have hfull : runStartWidth 1 (mergedColors ca) (mergedColors ca).length
      = ((((mergedColors ca).map Run.count).sum : ℕ) : ℚ) * 1 := by
    simp [runStartWidth, List.take_length]
  refine ⟨hS, hfull, ?_, ?_⟩
  · rw [hfull, mul_one, div_self hS, one_mul]
  · obtain ⟨r, hr⟩ := Option.isSome_iff_exists.mp (List.getLast?_isSome.mpr hne)
    refine ⟨r, hr, ?_⟩
    rw [gradientStops_eq]
    obtain ⟨m, hm⟩ : ∃ m, (mergedColors ca).length = m + 1 := by
      cases hl : (mergedColors ca).length with
      | zero => rw [hl] at h2; omega
      | succ m => exact ⟨m, rfl⟩
    rw [hm, List.range_succ, List.map_append, List.map_cons, List.map_nil,
      List.getLast?_concat]
    have hget : (mergedColors ca)[m]? = some r := by
      rw [← hr, List.getLast?_eq_getElem?, hm]
      simp
    have hsub : m + 1 - 1 = m := by omega
    have hend : (0 : ℚ) + runStartWidth 1 (mergedColors ca) (m + 1)
        = ((((mergedColors ca).map Run.count).sum : ℕ) : ℚ) * 1 := by
      rw [zero_add, ← hm, hfull]
    have hendval : roundIf (-1)
        ((0 + runStartWidth 1 (mergedColors ca) (m + 1))
          / (((((mergedColors ca).map Run.count).sum : ℕ) : ℚ) * 1) * 100) = 100 := by
      rw [hend]
      simp only [roundIf]
      rw [if_neg (by omega : ¬ (0 : Int) ≤ -1), mul_one, div_self hS, one_mul]
    simp only [specStop, hget, hendval]
    rw [if_neg (by simp : ¬ (100 : ℚ) ≠ 100)]
    have hstart : roundIf (-1)
        ((0 + runStartWidth 1 (mergedColors ca) m)
          / (((((mergedColors ca).map Run.count).sum : ℕ) : ℚ) * 1) * 100)
        = runStartWidth 1 (mergedColors ca) ((mergedColors ca).length - 1)
            / ((((mergedColors ca).map Run.count).sum : ℕ) : ℚ) * 100 := by
      simp only [roundIf]
      rw [if_neg (by omega : ¬ (0 : Int) ≤ -1), zero_add, mul_one, hm, hsub]
    rw [hstart, hm, hsub]

/-- Witness for final_stop_omitted at a concrete two-run row. -/
theorem final_stop_omitted_witness :
    2 ≤ (mergedColors ["a", "b", "b", "b"]).length ∧
    (∃ r : Run, (mergedColors ["a", "b", "b", "b"]).getLast? = some r ∧
      (gradientStops (-1)
          (((((mergedColors ["a", "b", "b", "b"]).map Run.count).sum : ℕ) : ℚ) * 1) 1 0
          (mergedColors ["a", "b", "b", "b"])).getLast?
        = some ("#" ++ r.color ++ " " ++
            asPercent (runStartWidth 1 (mergedColors ["a", "b", "b", "b"])
                ((mergedColors ["a", "b", "b", "b"]).length - 1)
              / ((((mergedColors ["a", "b", "b", "b"]).map Run.count).sum : ℕ) : ℚ) * 100))) :=
  ⟨by with_unfolding_all decide,
   (final_stop_omitted ["a", "b", "b", "b"] (by with_unfolding_all decide)).2.2.2⟩

/-! The keyframe pass of generateCSS: precision-driven and content-driven
collapse. -/

/-- The precision tie of generateCSS: this frame's raw percentage and the
next frame's raw percentage round to the same toFixed text at the configured
precision (textual identity of the two fixed-digit renderings coincides with
equality of the rounded scaled integers). -/
def roundTie (frameCount : Nat) (precision : Int) (index : Nat) : Prop :=
  toFixedInt precision.toNat (((index : ℚ) + 1) / (frameCount : ℚ) * 100)
    = toFixedInt precision.toNat ((index : ℚ) / (frameCount : ℚ) * 100)

instance (fc : Nat) (p : Int) (i : Nat) : Decidable (roundTie fc p i) := by
  unfold roundTie
  infer_instance

lemma keyframe_text_ne_empty (a b : String) :
    a ++ "%\x7b--a:" ++ b ++ "\x7d" ≠ "" := by
  intro h
  have hlen := congrArg String.length h
  simp [String.length_append] at hlen
  exact absurd hlen.1.1.2 (by decide)

/-- C1: with a finite precision configured, the keyframe pass of generateCSS
rounds the raw percentage of frame index and, independently, the raw
percentage of index+1 to the configured precision. When the two renderings are
identical the keyframe is suppressed outright — before the content check runs
and without touching the last-emitted-key state, hence independently of
whether the frame's pixel content differs from its predecessor's (the frame
is universally quantified). When they differ, the precision check never
suppresses: the frame is suppressed exactly when its key equals the last
emitted frame's key. -/
theorem generateCSS_precision_collapse (frameCount : Nat) (precision : Int)
    (index : Nat) (last : String) (frame : Frame) (rest : List Frame)
    (hp : 0 ≤ precision) :
    (roundTie frameCount precision index →
       keyframesAux frameCount precision index last (frame :: rest)
         = "" :: keyframesAux frameCount precision (index + 1) last rest) ∧
    (¬ roundTie frameCount precision index →
       ((keyframesAux frameCount precision index last (frame :: rest)).headI = ""
          ↔ frameString frame = last)) := by
  constructor
  · intro htie
    have hcond : 0 ≤ precision ∧
        toFixedInt precision.toNat (((index : ℚ) + 1) / (frameCount : ℚ) * 100)
          = toFixedInt precision.toNat ((index : ℚ) / (frameCount : ℚ) * 100) :=
      ⟨hp, htie⟩
    simp only [keyframesAux, keyframeEntry]
    rw [if_pos hcond]
  · intro htie
    have hcond : ¬ (0 ≤ precision ∧
        toFixedInt precision.toNat (((index : ℚ) + 1) / (frameCount : ℚ) * 100)
          = toFixedInt precision.toNat ((index : ℚ) / (frameCount : ℚ) * 100)) := by
      intro hc
      exact htie hc.2
    simp only [keyframesAux, keyframeEntry, List.headI]
    rw [if_neg hcond]
    by_cases hfs : frameString frame = last
    · rw [if_pos hfs]
      simp [hfs]
    · rw [if_neg hfs]
      simp only [hfs, iff_false]
      exact keyframe_text_ne_empty _ _

/-- Witness for generateCSS_precision_collapse: with 201 frames and precision
0, frame 0 and frame 1 round to the same integer percent, so frame 0 is
suppressed whatever its content. -/
theorem generateCSS_precision_collapse_witness :
    roundTie 201 0 0 ∧ keyframesAux 201 0 0 "" [[["a"]]] = [""] :=
  ⟨by with_unfolding_all decide,
   by
    rw [(generateCSS_precision_collapse 201 0 0 "" [["a"]] [] (by omega)).1
      (by with_unfolding_all decide)]
    rfl⟩

lemma keyframeEntry_emit_snd (fc : Nat) (p : Int) (idx : Nat) (f : Frame)
    (last : String) (h : (keyframeEntry fc p idx f last).1 ≠ "") :
    (keyframeEntry fc p idx f last).2 = frameString f := by
  simp only [keyframeEntry] at h ⊢
  split_ifs at h ⊢ <;> simp_all

lemma keyframeEntry_dup (fc : Nat) (p : Int) (idx : Nat) (f : Frame)
    (last : String) (h : frameString f = last) :
    (keyframeEntry fc p idx f last).1 = "" := by
  simp only [keyframeEntry]
  split_ifs <;> simp_all

lemma keyframesAux_pair (fc : Nat) (p : Int) :
    ∀ (l : List Frame) (idx : Nat) (last : String) (j : Nat),
      j + 1 < l.length →
      frameString (l.getD j []) = frameString (l.getD (j + 1) []) →
      (keyframesAux fc p idx last l).getD j "" ≠ "" →
      (keyframesAux fc p idx last l).getD (j + 1) "" = "" := by
  intro l
  induction l with
  | nil => intro idx last j hj; simp at hj
  | cons f rest ih =>
      intro idx last j hj hkey hemit
      cases j with
      | zero =>
          cases rest with
          | nil => simp at hj
          | cons f1 rest' =>
              simp only [keyframesAux, List.getD_cons_zero] at hemit
              have hsnd := keyframeEntry_emit_snd fc p idx f last hemit
              simp only [keyframesAux, List.getD_cons_succ, List.getD_cons_zero]
              simp only [List.getD_cons_zero, List.getD_cons_succ] at hkey
              exact keyframeEntry_dup fc p (idx + 1) f1 _ (by rw [hsnd, hkey])
      | succ k =>
          simp only [keyframesAux, List.getD_cons_succ] at hemit ⊢
          simp only [List.getD_cons_succ] at hkey
          exact ih (idx + 1) _ k (by simpa using hj) hkey hemit

/-- C2 (amended): for every pair of consecutive frames with identical
comparison key, whenever the first frame of the pair is emitted, the second
is suppressed — the pair yields exactly the first frame's keyframe, at the
first frame's percentage position — for every precision setting; the
comparison is made against the key of the last emitted frame. -/
theorem content_pair_suppression (frames : List Frame) (precision : Int) (i : Nat)
    (hlen : i + 1 < frames.length)
    (hkey : frameString (frames.getD i []) = frameString (frames.getD (i + 1) []))
    (hemit : (generateKeyframes frames precision).getD i "" ≠ "") :
    (generateKeyframes frames precision).getD (i + 1) "" = "" :=
  keyframesAux_pair frames.length precision frames 0 "" i hlen hkey hemit

/-- Witness for content_pair_suppression: two identical one-pixel frames at
unlimited precision; frame 0 is emitted, so frame 1 is suppressed. -/
theorem content_pair_suppression_witness :
    (generateKeyframes [[["b"]], [["b"]]] (-1)).getD 1 "" = "" :=
  content_pair_suppression [[["b"]], [["b"]]] (-1) 0 (by decide) rfl
    (by with_unfolding_all decide)

/-- Counterexample to C2 as stated: in a run of three identical one-pixel
frames at unlimited precision, frames 1 and 2 form a pair of consecutive
frames with identical keys, yet the pass emits zero keyframes for that pair
(both entries are suppressed against the key last emitted at frame 0), not
exactly one. -/
theorem content_pair_counterexample :
    frameString ([[["a"]], [["a"]], [["a"]]].getD 1 [])
        = frameString ([[["a"]], [["a"]], [["a"]]].getD 2 []) ∧
    generateKeyframes [[["a"]], [["a"]], [["a"]]] (-1)
      = ["0%\x7b--a:linear-gradient(90deg,#a,#a)\x7d", "", ""] := by
  constructor
  · rfl
  · with_unfolding_all decide

/-! Claim C4: generateCSS on an empty frame set. -/

/-- Counterexample to C4 as stated: generateCSS invoked with zero frames does
not fail — it returns a complete stylesheet text whose keyframes block is
empty (here at width 2, height 2, duration 5, unlimited precision). -/
theorem generateCSS_empty_counterexample :
    generateCSS [] 2 2 5 (-1)
      = ".animation\x7bheight:2px;width:2px;animation:animation-frames 5s infinite;background-repeat:no-repeat;background-image:var(--a);background-size:2px 1px,2px 1px;background-position:0 0px,0 1px\x7d@keyframes animation-frames\x7b\x7d" := by
  with_unfolding_all decide

/-- C4 (amended): generateCSS on zero frames performs no percentage division
and emits no keyframe rule (the keyframe list is empty), but it does not fail:
it returns the assembled stylesheet with an empty keyframes block, for every
width, height, duration and precision. -/
theorem generateCSS_empty_frames (w h : Nat) (d : ℚ) (p : Int) :
    generateKeyframes [] p = [] ∧
    generateCSS [] w h d p
      = ".animation\x7bheight:" ++ Nat.repr h ++ "px;width:" ++ Nat.repr w ++
        "px;animation:animation-frames " ++ numToString d ++ "s infinite;" ++
        "background-repeat:no-repeat;background-image:var(--a);background-size:" ++
        String.intercalate "," (List.replicate h (Nat.repr w ++ "px 1px")) ++
        ";background-position:" ++
        String.intercalate ","
          ((List.range h).map (fun i => "0 " ++ Nat.repr i ++ "px")) ++
        "\x7d@keyframes animation-frames\x7b" ++ "" ++ "\x7d" :=
  ⟨rfl, rfl⟩

/-! Claim C5: the bare-zero percentage quirk under rounding. -/

lemma asPercent_zero : asPercent 0 = "0" := by
  with_unfolding_all decide

/-- Counterexample to C5 as stated: at precision 0, the second run of this
201-pixel row starts at the strictly positive raw percentage 100/201, which
rounds to 0; the code rounds before emission, so that stop is printed as the
bare digit 0 with no percent suffix ("#b 0"), and the first run's end
percentage 100/201 is likewise printed as a bare 0 — contradicting the
claim that only the literal value 0 elides the suffix. -/
theorem rounded_zero_counterexample :
    createLinearGradient ("a" :: List.replicate 200 "b") 1 0
      = "linear-gradient(90deg,#a 0 0,#b 0)" := by
  with_unfolding_all decide

/-- C5 (amended): a percentage equal to 0 is rendered as the bare digit 0
with no percent suffix, and because rounding is applied before emission this
bare-zero form covers every percentage whose rounded value is 0: under a
finite precision, a strictly positive raw start percentage whose rounding is
0 is emitted as bare 0 without a percent suffix. -/
theorem rounded_zero_bare (p : Int) (tw w cum : ℚ) (r : Run)
    (hp : 0 ≤ p) (hpos : 0 < cum / tw * 100)
    (h0 : toFixedVal p.toNat (cum / tw * 100) = 0) :
    (stopOfRun p tw w cum r).1
      = "#" ++ r.color ++ " 0" ++
        (if toFixedVal p.toNat ((cum + (r.count : ℚ) * w) / tw * 100) ≠ 100
         then " " ++
           asPercent (toFixedVal p.toNat ((cum + (r.count : ℚ) * w) / tw * 100))
         else "") := by
  simp only [stopOfRun, if_pos hp]
  rw [h0, asPercent_zero]
  split_ifs with he
  · apply String.ext
    simp [String.data_append]
  · apply String.ext
    simp [String.data_append]

/-- Witness for rounded_zero_bare: the second run of the 201-pixel row starts
at raw 100/201 percent, rounds to 0 at precision 0, and is emitted as the
bare stop text with no percent suffix. -/
theorem rounded_zero_bare_witness :
    (stopOfRun 0 201 1 1 ⟨"b", 200⟩).1 = "#b 0" := by
  rw [rounded_zero_bare 0 201 1 1 ⟨"b", 200⟩ (by omega)
    (by with_unfolding_all decide) (by with_unfolding_all decide)]
  with_unfolding_all decide
